import Mathlib

/-!
Verification of the DreamDuo task-management backend core: the
closure-table hierarchy engine and activity aggregator of
src/server/models/task_utils.py and the dependency-graph engine of
src/server/models/task_dependency.py.

Embedding conventions: database tables are lists of row structures in
insertion order; SQLAlchemy queries become list operations (`filter`,
`find?`, `any`); ORM mutation of a fetched row becomes replacement of the
first matching list element; dates are day numbers (every date operation
used by the source is order-theoretic); Python truthiness of an optional
integer (`if user_id:`, `if parent_id:`) is modelled by `truthy`.
-/

namespace DreamDuo

/-- A row of the tasks table (src/server/models/task.py). Dates are day
numbers. The canvas display fields (position, color, shape) are omitted:
no operation modelled here reads or writes them. -/
structure Task where
  id : Nat
  name : String
  description : Option String
  completed : Bool
  priority : Option String
  userId : Nat
  categoryId : Option Nat
  parentId : Option Nat
  creationDate : Option Nat
  deadline : Option Nat
  deriving DecidableEq, Repr

/-- A closure-table row of task_hierarchy (src/server/models/task_hierarchy.py). -/
structure HRow where
  ancestor : Nat
  descendant : Nat
  depth : Nat
  deriving DecidableEq, Repr

/-- A row of task_dependencies (src/server/models/task_dependency.py). -/
structure Dep where
  id : Nat
  sourceTaskId : Nat
  targetTaskId : Nat
  userId : Nat
  deriving DecidableEq, Repr

/-- The relational store: the three tables touched by the modelled
operations, plus the autoincrement counters for the two id columns. -/
structure DB where
  tasks : List Task
  hier : List HRow
  deps : List Dep
  nextTaskId : Nat
  nextDepId : Nat
  deriving DecidableEq, Repr

/-- Python truthiness of an optional integer: None and 0 are falsy. -/
def truthy : Option Nat → Bool
  | none => false
  | some n => n != 0

/-- The task lookup filter used throughout task_utils.py:
`query(Task).filter(Task.id == task_id)` plus, only when `user_id` is
truthy, `.filter(Task.user_id == user_id)`. -/
def taskFilter (tid : Nat) (uid : Option Nat) (x : Task) : Bool :=
  x.id == tid && (if truthy uid then x.userId == uid.getD 0 else true)

/-- ORM object mutation: the row returned by `.first()` is updated in
place, i.e. the first list element satisfying the filter is replaced. -/
def replaceFirst (p : α → Bool) (f : α → α) : List α → List α
  | [] => []
  | x :: xs => if p x then f x :: xs else x :: replaceFirst p f xs

/-! ### Dependency graph engine (src/server/models/task_dependency.py) -/

/-- One step of building the Python dict adjacency list:
`graph[a].append(b)`, creating the key if absent. -/
def graphAppend (g : List (Nat × List Nat)) (a b : Nat) : List (Nat × List Nat) :=
  if g.any (fun kv => kv.1 == a) then
    g.map (fun kv => if kv.1 == a then (kv.1, kv.2 ++ [b]) else kv)
  else g ++ [(a, [b])]

/-- The `for neighbor in graph[node]` loop of `has_cycle`: recurse (via
`recCall`, the one-level-deeper `has_cycle`) into unvisited neighbors and
report a cycle when a neighbor is on the recursion stack. -/
def neighborLoop (recCall : Nat → List Nat → List Nat → Bool × List Nat × List Nat) :
    List Nat → List Nat → List Nat → Bool × List Nat × List Nat
  | [], visited, stack => (false, visited, stack)
  | nb :: rest, visited, stack =>
    if visited.contains nb then
      if stack.contains nb then (true, visited, stack)
      else neighborLoop recCall rest visited stack
    else
      match recCall nb visited stack with
      | (true, v, st) => (true, v, st)
      | (false, v, st) => neighborLoop recCall rest v st

/-- The recursive `has_cycle(node)` of `would_create_cycle`: mark `node`
visited and on the recursion stack, walk its adjacency list, and on a
clean return pop `node` from the stack. The shared mutable sets are
threaded through; `fuel` bounds the recursion depth and is exact whenever
it exceeds the number of graph nodes, because every recursive call is on
a node not yet visited. -/
def hasCycleAux (g : List (Nat × List Nat)) : Nat → Nat → List Nat → List Nat →
    Bool × List Nat × List Nat
  | 0, _, visited, stack => (true, visited, stack)
  | f + 1, node, visited, stack =>
    let visited1 := visited ++ [node]
    let stack1 := stack ++ [node]
    let nbs := match g.find? (fun kv => kv.1 == node) with
      | some kv => kv.2
      | none => []
    match neighborLoop (fun nb v st => hasCycleAux g f nb v st) nbs visited1 stack1 with
    | (true, v, st) => (true, v, st)
    | (false, v, st) => (false, v, st.erase node)

/-- would_create_cycle (task_dependency.py lines 125-164): build the
adjacency list of all the user's existing edges, append the reverse of
the proposed edge (`graph[target_id].append(source_id)`), and run the
DFS from `source_id`. -/
def would_create_cycle (s : DB) (sourceId targetId userId : Nat) : Bool :=
  let deps := s.deps.filter (fun d => d.userId == userId)
  let graph := deps.foldl (fun g d => graphAppend g d.sourceTaskId d.targetTaskId) []
  let graph := graphAppend graph targetId sourceId
  let fuel := graph.length + (graph.map (fun kv => kv.2.length)).sum + 2
  (hasCycleAux graph fuel sourceId [] []).1

/-- The ValueError raised by each rejection branch of add_dependency.
`circular` is the CycleError case (message
"Cannot create dependency: would create a circular dependency"). -/
inductive DepError where
  | notFound
  | sameTask
  | alreadyExists
  | circular
  deriving DecidableEq, Repr

/-- add_dependency (task_dependency.py lines 33-74): validate that both
tasks exist and belong to the user, reject self edges, duplicates, and
edges for which `would_create_cycle` is true, then insert the edge. -/
def add_dependency (s : DB) (sourceId targetId userId : Nat) :
    Except DepError (DB × Dep) :=
  let sourceTask := s.tasks.find? (fun x => x.id == sourceId && x.userId == userId)
  let targetTask := s.tasks.find? (fun x => x.id == targetId && x.userId == userId)
  if sourceTask.isNone || targetTask.isNone then .error .notFound
  else if sourceId == targetId then .error .sameTask
  else if s.deps.any (fun d =>
      d.sourceTaskId == sourceId && d.targetTaskId == targetId && d.userId == userId) then
    .error .alreadyExists
  else if would_create_cycle s sourceId targetId userId then .error .circular
  else
    let dep : Dep := ⟨s.nextDepId, sourceId, targetId, userId⟩
    .ok ({ s with deps := s.deps ++ [dep], nextDepId := s.nextDepId + 1 }, dep)

/-- The edge relation of a user's stored dependency graph. -/
def depEdge (s : DB) (userId : Nat) (a b : Nat) : Prop :=
  ∃ d ∈ s.deps, d.userId = userId ∧ d.sourceTaskId = a ∧ d.targetTaskId = b

/-- A (non-empty) directed path through a user's stored dependency edges. -/
def depPath (s : DB) (userId : Nat) : Nat → Nat → Prop :=
  Relation.TransGen (depEdge s userId)

/-- A two-task store for user 1, with no dependency edges yet. -/
def depDemoDB : DB :=
  { tasks := [⟨1, "A", none, false, none, 1, none, none, none, none⟩,
              ⟨2, "B", none, false, none, 1, none, none, none, none⟩],
    hier := [⟨1, 1, 0⟩, ⟨2, 2, 0⟩],
    deps := [], nextTaskId := 3, nextDepId := 1 }

/-- The store after a successful `add_dependency 1 2`: one edge 1 → 2. -/
def depDemoDB1 : DB :=
  { tasks := depDemoDB.tasks, hier := depDemoDB.hier,
    deps := [⟨1, 1, 2, 1⟩], nextTaskId := 3, nextDepId := 2 }

/-! ### Hierarchy engine (src/server/models/task_utils.py) -/

/-- add_task (task_utils.py lines 9-61): create the Task row (the new id
is the autoincrement value acquired at `session.flush()`), then insert
the closure rows: with a truthy parent_id, one copy of every closure row
ending at the parent, re-targeted at the new id with depth+1, plus the
self-edge; otherwise only the self-edge. The function performs no
existence or ownership check on parent_id. The creation_date column's
database-side default (current date) is not modelled; the passed value
is stored as is, and no claim treated here depends on the default. -/
def add_task (s : DB) (nm : String) (userId : Nat) (description : Option String)
    (parentId : Option Nat) (categoryId : Option Nat) (priority : Option String)
    (creationDate : Option Nat) (deadline : Option Nat) : DB × Task :=
  let newTask : Task :=
    { id := s.nextTaskId, name := nm, description := description, completed := false,
      priority := priority, userId := userId, categoryId := categoryId,
      parentId := parentId, creationDate := creationDate, deadline := deadline }
  let newHier :=
    if truthy parentId then
      s.hier ++ (s.hier.filter (fun r => r.descendant == parentId.getD 0)).map
        (fun r => ⟨r.ancestor, newTask.id, r.depth + 1⟩) ++ [⟨newTask.id, newTask.id, 0⟩]
    else
      s.hier ++ [⟨newTask.id, newTask.id, 0⟩]
  ({ s with tasks := s.tasks ++ [newTask], hier := newHier,
            nextTaskId := s.nextTaskId + 1 },
   newTask)

/-- The descendant id set (self included) read by move_subtask:
`SELECT descendant FROM task_hierarchy WHERE ancestor = subtask_id`. -/
def subtreeIds (hier : List HRow) (t : Nat) : List Nat :=
  (hier.filter (fun r => r.ancestor == t)).map (fun r => r.descendant)

/-- The proper-descendant id set read by delete_task:
`SELECT descendant WHERE ancestor = task_id AND depth > 0`. -/
def properDescIds (hier : List HRow) (t : Nat) : List Nat :=
  (hier.filter (fun r => r.ancestor == t && decide (0 < r.depth))).map
    (fun r => r.descendant)

/-- delete_task (task_utils.py lines 173-235): look the task up (scoped
by user only when user_id is truthy); absent means `(false, unchanged)`.
Otherwise collect the proper descendants and delete, in one transaction,
every closure row whose ancestor or descendant is in the id set and every
task row in the id set (the source splits the no-descendant case off but
performs the same deletion there). -/
def delete_task (s : DB) (taskId : Nat) (userId : Option Nat) : Bool × DB :=
  match s.tasks.find? (taskFilter taskId userId) with
  | none => (false, s)
  | some task =>
    let descendantIds := properDescIds s.hier taskId
    if !descendantIds.isEmpty then
      let allIds := taskId :: descendantIds
      let hier := s.hier.filter (fun r =>
        !(allIds.contains r.ancestor || allIds.contains r.descendant))
      let tasks := s.tasks.filter (fun y => !(allIds.contains y.id))
      (true, { s with tasks := tasks, hier := hier })
    else
      let hier := s.hier.filter (fun r =>
        !(r.ancestor == taskId || r.descendant == taskId))
      let tasks := s.tasks.filter (fun y => !(y.id == task.id))
      (true, { s with tasks := tasks, hier := hier })

/-- `INSERT ... ON CONFLICT (ancestor, descendant) DO UPDATE SET depth =
EXCLUDED.depth`: overwrite the depth of the row with this key if present,
else append the row. -/
def upsertHRow (hier : List HRow) (a d k : Nat) : List HRow :=
  if hier.any (fun r => r.ancestor == a && r.descendant == d) then
    hier.map (fun r => if r.ancestor == a && r.descendant == d then ⟨a, d, k⟩ else r)
  else hier ++ [⟨a, d, k⟩]

/-- The body of move_subtask's inner loop over the subtree members, for
one ancestor row `ar` of the new parent: read the member's depth below
the subtask from the current table and upsert the re-linked row. -/
def moveInner (t : Nat) (ar : HRow) (acc2 : List HRow) (m : Nat) : List HRow :=
  match acc2.find? (fun r => r.ancestor == t && r.descendant == m) with
  | some sr => upsertHRow acc2 ar.ancestor m (ar.depth + sr.depth + 1)
  | none => acc2

/-- One outer-loop step of move_subtask: process every subtree member for
the ancestor row `ar`. -/
def moveOuter (t : Nat) (descendantIds : List Nat) (acc : List HRow) (ar : HRow) :
    List HRow :=
  descendantIds.foldl (moveInner t ar) acc

/-- The make-root branch body of move_subtask's loop: re-upsert each
surviving subtask-to-member row at its own depth. -/
def moveRootStep (t : Nat) (acc2 : List HRow) (m : Nat) : List HRow :=
  match acc2.find? (fun r => r.ancestor == t && r.descendant == m) with
  | some sr => upsertHRow acc2 t m sr.depth
  | none => acc2

/-- Repeated upserts of a list of rows, in order. -/
def upsertMany (base : List HRow) (ws : List HRow) : List HRow :=
  ws.foldl (fun acc w => upsertHRow acc w.ancestor w.descendant w.depth) base

/-- The rows that move_subtask's inner loop writes for one ancestor row
`ar` of the new parent, read against a fixed table h1: one row per
subtree member whose depth below the subtask is found in h1. -/
def moveWrites (t : Nat) (h1 : List HRow) (descendantIds : List Nat) (ar : HRow) :
    List HRow :=
  descendantIds.filterMap (fun m =>
    (h1.find? (fun r => r.ancestor == t && r.descendant == m)).map
      (fun sr => ⟨ar.ancestor, m, ar.depth + sr.depth + 1⟩))

/-- move_subtask (task_utils.py lines 238-384). Rejections, in source
order, each returning `(false, unchanged)`: subtask not found; new parent
given but not found; new parent equal to the subtask; a closure row from
the subtask to the new parent exists (the new parent is inside the
subtree); no hierarchy row with the subtask as ancestor. Then: delete
every closure row whose descendant is in the subtree but whose ancestor
is not; for a given new parent, iterate over the new parent's ancestor
rows and the subtree ids, reading each member's depth below the subtask
from the evolving table and upserting `(ancestor, member, depth of
ancestor over parent + member depth + 1)`; for a null new parent, upsert
each surviving self/subtree row at its own depth. Finally set the moved
task's parent_id. -/
def move_subtask (s : DB) (subtaskId : Nat) (newParentId : Option Nat)
    (userId : Option Nat) : Bool × DB :=
  match s.tasks.find? (taskFilter subtaskId userId) with
  | none => (false, s)
  | some _ =>
    let ok : Bool :=
      match newParentId with
      | none => true
      | some np =>
        match s.tasks.find? (taskFilter np userId) with
        | none => false
        | some _ =>
          if subtaskId == np then false
          else if s.hier.any (fun r => r.ancestor == subtaskId && r.descendant == np) then
            false
          else true
    if ok then
      let descendantIds := subtreeIds s.hier subtaskId
      if descendantIds.isEmpty then (false, s)
      else
        let h1 := s.hier.filter (fun r =>
          !(descendantIds.contains r.descendant && !descendantIds.contains r.ancestor))
        let hier2 :=
          match newParentId with
          | some np =>
            (h1.filter (fun r => r.descendant == np)).foldl
              (moveOuter subtaskId descendantIds) h1
          | none =>
            descendantIds.foldl (moveRootStep subtaskId) h1
        let tasks2 := replaceFirst (taskFilter subtaskId userId)
          (fun x => { x with parentId := newParentId }) s.tasks
        (true, { s with tasks := tasks2, hier := hier2 })
    else (false, s)

/-- toggle_task_completion (task_utils.py lines 387-404): look the task
up (scoped by user only when user_id is truthy); absent means
`(none, unchanged)`; otherwise flip the row's completed flag and return
the id with the new flag value. -/
def toggle_task_completion (s : DB) (taskId : Nat) (userId : Option Nat) :
    Option (Nat × Bool) × DB :=
  match s.tasks.find? (taskFilter taskId userId) with
  | none => (none, s)
  | some task =>
    let tasks := replaceFirst (taskFilter taskId userId)
      (fun x => { x with completed := !x.completed }) s.tasks
    (some (task.id, !task.completed), { s with tasks := tasks })

/-- A store with no rows; both autoincrement counters start at 1. -/
def emptyDB : DB := ⟨[], [], [], 1, 1⟩

/-- The four-root store used for the diamond DAG sequence. -/
def diaDB0 : DB :=
  { tasks := [⟨1, "A", none, false, none, 1, none, none, none, none⟩,
      ⟨2, "B", none, false, none, 1, none, none, none, none⟩,
      ⟨3, "C", none, false, none, 1, none, none, none, none⟩,
      ⟨4, "D", none, false, none, 1, none, none, none, none⟩],
    hier := [⟨1, 1, 0⟩, ⟨2, 2, 0⟩, ⟨3, 3, 0⟩, ⟨4, 4, 0⟩],
    deps := [], nextTaskId := 5, nextDepId := 1 }

/-- diaDB0 after the edge 1 → 2. -/
def diaDB1 : DB := { diaDB0 with deps := [⟨1, 1, 2, 1⟩], nextDepId := 2 }

/-- diaDB1 after the edge 1 → 3. -/
def diaDB2 : DB :=
  { diaDB0 with deps := [⟨1, 1, 2, 1⟩, ⟨2, 1, 3, 1⟩], nextDepId := 3 }

/-- diaDB2 after the edge 2 → 4. -/
def diaDB3 : DB :=
  { diaDB0 with deps := [⟨1, 1, 2, 1⟩, ⟨2, 1, 3, 1⟩, ⟨3, 2, 4, 1⟩], nextDepId := 4 }

/-- diaDB3 after the edge 3 → 4: the full diamond. -/
def diaDB4 : DB :=
  { diaDB0 with
    deps := [⟨1, 1, 2, 1⟩, ⟨2, 1, 3, 1⟩, ⟨3, 2, 4, 1⟩, ⟨4, 3, 4, 1⟩],
    nextDepId := 5 }

/-- The scenario store after creating root R (id 1) on day 0. -/
def scenarioR : DB := (add_task emptyDB "R" 1 none none none none (some 0) none).1

/-- scenarioR after adding subtask S1 (id 2) under R. -/
def scenarioS1 : DB := (add_task scenarioR "S1" 1 none (some 1) none none (some 0) none).1

/-- scenarioS1 after adding subtask S2 (id 3) under S1. -/
def scenarioS2 : DB := (add_task scenarioS1 "S2" 1 none (some 2) none none (some 0) none).1

/-- A one-task store whose only task (id 10) belongs to user 2. -/
def c7DB : DB :=
  { tasks := [⟨10, "foreign parent", none, false, none, 2, none, none, none, none⟩],
    hier := [⟨10, 10, 0⟩], deps := [], nextTaskId := 11, nextDepId := 1 }

/-- The running demonstration store: the chain 1 → 2 → 3 plus the
separate root 4, all owned by user 1, with a well-formed closure table. -/
def demoDB : DB :=
  { tasks := [⟨1, "a", none, false, none, 1, none, none, none, none⟩,
      ⟨2, "b", none, true, none, 1, none, some 1, none, none⟩,
      ⟨3, "c", none, false, none, 1, none, some 2, none, none⟩,
      ⟨4, "d", none, false, none, 1, none, none, none, none⟩],
    hier := [⟨1, 1, 0⟩, ⟨1, 2, 1⟩, ⟨2, 2, 0⟩, ⟨1, 3, 2⟩, ⟨2, 3, 1⟩, ⟨3, 3, 0⟩, ⟨4, 4, 0⟩],
    deps := [], nextTaskId := 5, nextDepId := 1 }

/-! ### Activity aggregator (get_tasks_stats_by_date_range) -/

/-- Python round() to zero digits: round half to even. The source applies
round to a quotient of machine floats; the embedding computes the same
expression on exact rationals. -/
def pyRoundHalfEven (x : ℚ) : ℤ :=
  if x - ⌊x⌋ < 1 / 2 then ⌊x⌋
  else if 1 / 2 < x - ⌊x⌋ then ⌊x⌋ + 1
  else if ⌊x⌋ % 2 = 0 then ⌊x⌋ else ⌊x⌋ + 1

/-- Python round(x, 2). -/
def round2 (x : ℚ) : ℚ := (pyRoundHalfEven (x * 100) : ℚ) / 100

/-- The base query of get_tasks_stats_by_date_range (task_utils.py lines
590-614): the user's root tasks created on or before the range end that
either carry a deadline reaching back to the range start or carry no
deadline and are not completed; then the category and priority filters,
each applied only when the passed list is truthy and non-empty
(`if category_ids and len(category_ids) > 0`). A SQL NULL column never
matches an IN filter. -/
def statsBaseQuery (s : DB) (userId startD endD : Nat)
    (categoryIds : Option (List Nat)) (priorityLevels : Option (List String)) :
    List Task :=
  let q := s.tasks.filter (fun t =>
    t.userId == userId && t.parentId == none
    && (match t.creationDate with
        | some c => decide (c ≤ endD)
        | none => false)
    && ((match t.deadline with
        | some dl => decide (startD ≤ dl)
        | none => false)
      || (t.deadline == none && t.completed == false)))
  let q1 := match categoryIds with
    | some l =>
      if 0 < l.length then
        q.filter (fun t => match t.categoryId with
          | some c => l.contains c
          | none => false)
      else q
    | none => q
  match priorityLevels with
  | some l =>
    if 0 < l.length then
      q1.filter (fun t => match t.priority with
        | some pr => l.contains pr
        | none => false)
    else q1
  | none => q1

/-- The per-task activity test inside the per-day loop (task_utils.py
lines 630-648): active iff created on or before the day and either the
deadline has not yet passed, or there is no deadline, the task is not
completed, and the day is "today". -/
def isActive (t : Task) (currentDate today : Nat) : Bool :=
  match t.creationDate with
  | none => false
  | some c =>
    if c ≤ currentDate then
      match t.deadline with
      | some dl => decide (currentDate ≤ dl)
      | none => currentDate == today && !t.completed
    else false

/-- One step of the per-day counting loop (task_utils.py lines 630-665),
accumulating (total, completed, in-progress): an active task increments
total; with direct subtasks present it increments completed when all of
them are completed and in-progress when only some are; with no subtasks
its own flag decides completed. -/
def dayStep (allRows : List Task) (currentDate today : Nat)
    (acc : Nat × Nat × Nat) (t : Task) : Nat × Nat × Nat :=
  if isActive t currentDate today then
    let subtasks := allRows.filter (fun st => st.parentId == some t.id)
    if !subtasks.isEmpty then
      if subtasks.all (fun st => st.completed) then (acc.1 + 1, acc.2.1 + 1, acc.2.2)
      else if subtasks.any (fun st => st.completed) then (acc.1 + 1, acc.2.1, acc.2.2 + 1)
      else (acc.1 + 1, acc.2.1, acc.2.2)
    else
      if t.completed then (acc.1 + 1, acc.2.1 + 1, acc.2.2)
      else (acc.1 + 1, acc.2.1, acc.2.2)
  else acc

/-- A row of the emitted per-day statistics; weekday is the day number
modulo 7. -/
structure DayStat where
  date : Nat
  weekday : Nat
  totalTasks : Nat
  completedTasks : Nat
  status : String
  completionPercentage : ℚ
  deriving DecidableEq, Repr

/-- One day of statistics (task_utils.py lines 624-687): run the counting
loop over the pre-filtered tasks, derive the status string and the
completion percentage. -/
def dayStat (allRows activeTasks : List Task) (currentDate today : Nat) : DayStat :=
  let c := activeTasks.foldl (dayStep allRows currentDate today) (0, 0, 0)
  let status :=
    if c.1 == 0 then "Free"
    else if c.2.1 == c.1 then "Completed"
    else if 0 < c.2.2 ∨ 0 < c.2.1 then "inprogress"
    else "Not started"
  let pct := if 0 < c.1 then round2 ((c.2.1 : ℚ) / (c.1 : ℚ) * 100) else 0
  ⟨currentDate, currentDate % 7, c.1, c.2.1, status, pct⟩

/-- The days start..endD inclusive, as iterated by the source's
`while current_date <= end_date_only` loop with a one-day increment. -/
def dayRange (startD endD : Nat) : List Nat :=
  (List.range (endD + 1 - startD)).map (fun i => startD + i)

/-- get_tasks_stats_by_date_range (task_utils.py lines 562-691). `today`
is the client-supplied day when present (a Python date is always truthy),
else the server clock day, which the embedding takes as a parameter. -/
def get_tasks_stats_by_date_range (s : DB) (userId startD endD : Nat)
    (categoryIds : Option (List Nat)) (priorityLevels : Option (List String))
    (clientToday : Option Nat) (serverToday : Nat) : List DayStat :=
  let today := clientToday.getD serverToday
  let allTasks := statsBaseQuery s userId startD endD categoryIds priorityLevels
  (dayRange startD endD).map (fun d => dayStat s.tasks allTasks d today)

/-- Whether get_tasks_stats_by_date_range counts task t as active on day
d: t passes the base query and the per-day activity test. -/
def countedActive (s : DB) (userId startD endD : Nat)
    (categoryIds : Option (List Nat)) (priorityLevels : Option (List String))
    (t : Task) (d today : Nat) : Bool :=
  (statsBaseQuery s userId startD endD categoryIds priorityLevels).contains t
    && isActive t d today

/-- Derived completion of a root task (task_utils.py lines 653-665): with
direct subtasks, completed iff all of them are completed, the root's own
flag ignored; with none, the root's own flag. -/
def taskCounted (allRows : List Task) (t : Task) : Bool :=
  let subtasks := allRows.filter (fun st => st.parentId == some t.id)
  if !subtasks.isEmpty then subtasks.all (fun st => st.completed) else t.completed

/-- Partial completion of a root task: it has direct subtasks and some
but not all of them are completed. -/
def taskPartial (allRows : List Task) (t : Task) : Bool :=
  let subtasks := allRows.filter (fun st => st.parentId == some t.id)
  !subtasks.isEmpty && subtasks.any (fun st => st.completed)
    && !subtasks.all (fun st => st.completed)

/-- A store for the activity-window examples: task 5 created on day 10
with deadline day 15, task 6 undated and not completed, task 7 undated
and completed, all roots of user 1. -/
def statsDB : DB :=
  { tasks := [⟨5, "windowed", none, false, none, 1, none, none, some 10, some 15⟩,
      ⟨6, "undated", none, false, none, 1, none, none, some 10, none⟩,
      ⟨7, "undated done", none, true, none, 1, none, none, some 10, none⟩],
    hier := [⟨5, 5, 0⟩, ⟨6, 6, 0⟩, ⟨7, 7, 0⟩],
    deps := [], nextTaskId := 8, nextDepId := 1 }

/-! ### Dependency-graph claims -/

/-- Every stored edge of user 1 in depDemoDB1 is the single edge 1 → 2. -/
theorem depDemoDB1_edge_eq {a b : Nat} (h : depEdge depDemoDB1 1 a b) :
    a = 1 ∧ b = 2 := by
  obtain ⟨d, hd, _, hs, ht⟩ := h
  have hde : d = ⟨1, 1, 2, 1⟩ := by simpa [depDemoDB1] using hd
  subst hde
  exact ⟨hs.symm, ht.symm⟩

/-- Every path through depDemoDB1's single edge runs from 1 to 2. -/
theorem depDemoDB1_path_eq {a b : Nat} (h : depPath depDemoDB1 1 a b) :
    a = 1 ∧ b = 2 := by
  induction h with
  | single h1 => exact depDemoDB1_edge_eq h1
  | tail _ h1 ih =>
    have h2 := depDemoDB1_edge_eq h1
    omega

/-- C1: the dependency edge set does not stay acyclic. The diamond
sequence A→B, A→C, B→D, C→D is indeed accepted edge by edge, but with
the single edge 1 → 2 stored, add_dependency for the closing edge 2 → 1
of the length-2 cycle is not rejected with the CycleError: it succeeds
and inserts the edge, after which the user's edge set contains the cycle
1 ⇒ 1 (the repository's own tests in testing/test_dependencies.py assert
that this call must be rejected). -/
theorem addDependency_accepts_cycle_closing_edge :
    add_dependency depDemoDB 1 2 1 = .ok (depDemoDB1, ⟨1, 1, 2, 1⟩)
    ∧ add_dependency depDemoDB1 2 1 1 =
        .ok ({ depDemoDB1 with deps := [⟨1, 1, 2, 1⟩, ⟨2, 2, 1, 1⟩], nextDepId := 3 },
          ⟨2, 2, 1, 1⟩)
    ∧ depPath { depDemoDB1 with deps := [⟨1, 1, 2, 1⟩, ⟨2, 2, 1, 1⟩], nextDepId := 3 } 1 1 1
    ∧ add_dependency diaDB0 1 2 1 = .ok (diaDB1, ⟨1, 1, 2, 1⟩)
    ∧ add_dependency diaDB1 1 3 1 = .ok (diaDB2, ⟨2, 1, 3, 1⟩)
    ∧ add_dependency diaDB2 2 4 1 = .ok (diaDB3, ⟨3, 2, 4, 1⟩)
    ∧ add_dependency diaDB3 3 4 1 = .ok (diaDB4, ⟨4, 3, 4, 1⟩) := by
  refine ⟨rfl, rfl, ?_, rfl, rfl, rfl, rfl⟩
  have h12 : depEdge { depDemoDB1 with
      deps := [⟨1, 1, 2, 1⟩, ⟨2, 2, 1, 1⟩], nextDepId := 3 } 1 1 2 :=
    ⟨⟨1, 1, 2, 1⟩, by simp, rfl, rfl, rfl⟩
  have h21 : depEdge { depDemoDB1 with
      deps := [⟨1, 1, 2, 1⟩, ⟨2, 2, 1, 1⟩], nextDepId := 3 } 1 2 1 :=
    ⟨⟨2, 2, 1, 1⟩, by simp, rfl, rfl, rfl⟩
  exact Relation.TransGen.tail (Relation.TransGen.single h12) h21

/-- C2: the cycle check looks in the wrong direction. With the acyclic
edge set of depDemoDB1 (exactly 1 → 2, proved acyclic below) and the
proposed edge (source 2, target 1), a one-edge path target ⇒ source is
already stored, yet would_create_cycle returns false: the DFS detects
paths source ⇒ target through the augmented adjacency list, not
target ⇒ source as specified and as the repository's tests expect. -/
theorem wouldCreateCycle_misses_stored_path :
    would_create_cycle depDemoDB1 2 1 1 = false
    ∧ depPath depDemoDB1 1 1 2
    ∧ ∀ a, ¬ depPath depDemoDB1 1 a a := by
  refine ⟨rfl, ?_, ?_⟩
  · exact Relation.TransGen.single ⟨⟨1, 1, 2, 1⟩, by simp [depDemoDB1], rfl, rfl, rfl⟩
  · intro a h
    have := depDemoDB1_path_eq h
    omega

/-! ### AddTask claims -/

/-- Truthiness of a nonzero optional integer. -/
theorem truthy_some {n : Nat} (h : n ≠ 0) : truthy (some n) = true := by
  simp [truthy, h]

/-- C5: add_task inserts exactly the claimed closure rows. Without a
parent id only the self-edge of the new id is appended; with a nonzero
parent id pid, one row (a, newId, d+1) for every stored row (a, pid, d)
plus the self-edge (newId, newId, 0) — stated as the exact row list and
as a membership characterization. In the concrete scenario R / S1 under
R / S2 under S1, the rows (R,S2,2), (S1,S2,1) and (S2,S2,0) all exist. -/
theorem addTask_closure_rows :
    (∀ s nm uid de cid pr cd dl,
      (add_task s nm uid de none cid pr cd dl).1.hier
          = s.hier ++ [⟨s.nextTaskId, s.nextTaskId, 0⟩]
      ∧ (add_task s nm uid de none cid pr cd dl).2.id = s.nextTaskId)
    ∧ (∀ s nm uid de cid pr cd dl pid, pid ≠ 0 →
      (add_task s nm uid de (some pid) cid pr cd dl).1.hier
          = s.hier ++ (s.hier.filter (fun r => r.descendant == pid)).map
              (fun r => ⟨r.ancestor, s.nextTaskId, r.depth + 1⟩)
            ++ [⟨s.nextTaskId, s.nextTaskId, 0⟩]
      ∧ ∀ row : HRow,
          row ∈ (add_task s nm uid de (some pid) cid pr cd dl).1.hier ↔
            row ∈ s.hier
            ∨ (∃ a d, (⟨a, pid, d⟩ : HRow) ∈ s.hier ∧ row = ⟨a, s.nextTaskId, d + 1⟩)
            ∨ row = ⟨s.nextTaskId, s.nextTaskId, 0⟩)
    ∧ ((⟨1, 3, 2⟩ : HRow) ∈ scenarioS2.hier ∧ (⟨2, 3, 1⟩ : HRow) ∈ scenarioS2.hier
        ∧ (⟨3, 3, 0⟩ : HRow) ∈ scenarioS2.hier) := by
  refine ⟨fun s nm uid de cid pr cd dl => ⟨rfl, rfl⟩, ?_, by decide, by decide, by decide⟩
  intro s nm uid de cid pr cd dl pid hpid
  have heq : (add_task s nm uid de (some pid) cid pr cd dl).1.hier
      = s.hier ++ (s.hier.filter (fun r => r.descendant == pid)).map
          (fun r => ⟨r.ancestor, s.nextTaskId, r.depth + 1⟩)
        ++ [⟨s.nextTaskId, s.nextTaskId, 0⟩] := by
    simp [add_task, truthy_some hpid]
  refine ⟨heq, ?_⟩
  intro row
  rw [heq]
  simp only [List.mem_append, List.mem_map, List.mem_filter, List.mem_singleton]
  constructor
  · rintro ((h | ⟨r, ⟨hr, hrd⟩, hrow⟩) | h)
    · exact Or.inl h
    · refine Or.inr (Or.inl ⟨r.ancestor, r.depth, ?_, hrow.symm⟩)
      have : r.descendant = pid := by simpa using hrd
      have hr2 : r = ⟨r.ancestor, pid, r.depth⟩ := by
        cases r; simp_all
      exact hr2 ▸ hr
    · exact Or.inr (Or.inr h)
  · rintro (h | ⟨a, d, hmem, hrow⟩ | h)
    · exact Or.inl (Or.inl h)
    · exact Or.inl (Or.inr ⟨⟨a, pid, d⟩, ⟨hmem, by simp⟩, hrow.symm⟩)
    · exact Or.inr h

/-- C7 counterexample: user 1 calls add_task with parent 10, a task that
exists but belongs only to user 2 — the claim demands a NotFoundError
with nothing created, yet the call returns normally, appends a Task row
for user 1 under parent 10 and inserts two closure rows. -/
theorem addTask_foreign_parent_accepted :
    add_task c7DB "child" 1 none (some 10) none none none none =
      ({ tasks := c7DB.tasks ++ [⟨11, "child", none, false, none, 1, none, some 10, none, none⟩],
         hier := [⟨10, 10, 0⟩, ⟨10, 11, 1⟩, ⟨11, 11, 0⟩],
         deps := [], nextTaskId := 12, nextDepId := 1 },
        ⟨11, "child", none, false, none, 1, none, some 10, none, none⟩)
    ∧ ∀ y ∈ c7DB.tasks, y.userId ≠ 1 := ⟨rfl, by decide⟩

/-- C7 amended: add_task performs no existence or ownership check on a
truthy parent_id. For every store, caller and nonzero parent id — owned
by the caller or not, existing or not — the call returns normally,
appends a new Task row for the caller with that parent id, and inserts
the self-edge plus the copied parent closure rows. -/
theorem addTask_no_parent_validation (s : DB) (nm : String) (uid : Nat)
    (de : Option String) (cid : Option Nat) (pr : Option String)
    (cd dl : Option Nat) (pid : Nat) (hpid : pid ≠ 0) :
    ∃ t : Task,
      add_task s nm uid de (some pid) cid pr cd dl =
        ({ s with
            tasks := s.tasks ++ [t],
            hier := s.hier ++ (s.hier.filter (fun r => r.descendant == pid)).map
                (fun r => ⟨r.ancestor, s.nextTaskId, r.depth + 1⟩)
              ++ [⟨s.nextTaskId, s.nextTaskId, 0⟩],
            nextTaskId := s.nextTaskId + 1 }, t)
      ∧ t.userId = uid ∧ t.parentId = some pid ∧ t.id = s.nextTaskId := by
  refine ⟨⟨s.nextTaskId, nm, de, false, pr, uid, cid, some pid, cd, dl⟩, ?_, rfl, rfl, rfl⟩
  simp [add_task, truthy_some hpid]

/-- Witness: the parent-id branch of addTask_closure_rows applied to the
concrete store scenarioS1 with parent 2. -/
theorem addTask_closure_rows_witness :
    (2 : Nat) ≠ 0 ∧
    (add_task scenarioS1 "S2" 1 none (some 2) none none (some 0) none).1.hier
      = scenarioS1.hier ++ (scenarioS1.hier.filter (fun r => r.descendant == 2)).map
          (fun r => ⟨r.ancestor, scenarioS1.nextTaskId, r.depth + 1⟩)
        ++ [⟨scenarioS1.nextTaskId, scenarioS1.nextTaskId, 0⟩] :=
  ⟨by decide,
   (addTask_closure_rows.2.1 scenarioS1 "S2" 1 none none none (some 0) none 2
     (by decide)).1⟩

/-- Witness: addTask_no_parent_validation applied to the concrete store
c7DB, whose only candidate parent belongs to another user. -/
theorem addTask_no_parent_validation_witness :
    (10 : Nat) ≠ 0 ∧
    ∃ t : Task,
      add_task c7DB "kid" 1 none (some 10) none none none none =
        ({ c7DB with
            tasks := c7DB.tasks ++ [t],
            hier := c7DB.hier ++ (c7DB.hier.filter (fun r => r.descendant == 10)).map
                (fun r => ⟨r.ancestor, c7DB.nextTaskId, r.depth + 1⟩)
              ++ [⟨c7DB.nextTaskId, c7DB.nextTaskId, 0⟩],
            nextTaskId := c7DB.nextTaskId + 1 }, t)
      ∧ t.userId = 1 ∧ t.parentId = some 10 ∧ t.id = c7DB.nextTaskId :=
  ⟨by decide,
   addTask_no_parent_validation c7DB "kid" 1 none none none none none 10 (by decide)⟩

/-! ### MoveSubtask rejection (C6) -/

/-- C6: for every task t and move target p that is t itself or a proper
closure descendant of t, move_subtask returns false and leaves the store
exactly as it was. -/
theorem moveSubtask_rejects_descendant_target (s : DB) (t p : Nat) (uid : Option Nat)
    (h : p = t ∨ ∃ j, 0 < j ∧ (⟨t, p, j⟩ : HRow) ∈ s.hier) :
    move_subtask s t (some p) uid = (false, s) := by
  cases hf : s.tasks.find? (taskFilter t uid) with
  | none => simp [move_subtask, hf]
  | some x =>
    cases hp : s.tasks.find? (taskFilter p uid) with
    | none => simp [move_subtask, hf, hp]
    | some y =>
      rcases h with rfl | ⟨j, hj, hmem⟩
      · simp [move_subtask, hf, hp]
      · have hex : ∃ r ∈ s.hier, r.ancestor = t ∧ r.descendant = p :=
          ⟨⟨t, p, j⟩, hmem, rfl, rfl⟩
        by_cases htp : t = p
        · subst htp; simp [move_subtask, hf, hp]
        · simp [move_subtask, hf, hp, htp, hex]

/-- Witness: moving task 1 under its depth-2 descendant 3 in demoDB is
rejected without mutation. -/
theorem moveSubtask_rejects_descendant_target_witness :
    ((3 : Nat) = 1 ∨ ∃ j, 0 < j ∧ (⟨1, 3, j⟩ : HRow) ∈ demoDB.hier)
    ∧ move_subtask demoDB 1 (some 3) (some 1) = (false, demoDB) :=
  ⟨Or.inr ⟨2, by decide, by decide⟩,
   moveSubtask_rejects_descendant_target demoDB 1 3 (some 1)
     (Or.inr ⟨2, by decide, by decide⟩)⟩

/-! ### DeleteTask (C4) -/

/-- C4: when the task exists (scoped by the truthy user filter),
delete_task returns true and afterwards no task row and no closure row —
on either side — references the task or any of its closure descendants;
when no task row passes the filter, it returns false and the store is
untouched. -/
theorem deleteTask_spec (s : DB) (tid : Nat) (uid : Option Nat) :
    ((∃ x ∈ s.tasks, taskFilter tid uid x = true) →
      (delete_task s tid uid).1 = true
      ∧ (∀ y ∈ (delete_task s tid uid).2.tasks,
          y.id ≠ tid ∧ y.id ∉ properDescIds s.hier tid)
      ∧ (∀ r ∈ (delete_task s tid uid).2.hier,
          r.ancestor ≠ tid ∧ r.ancestor ∉ properDescIds s.hier tid
          ∧ r.descendant ≠ tid ∧ r.descendant ∉ properDescIds s.hier tid))
    ∧ ((∀ y ∈ s.tasks, taskFilter tid uid y = false) →
      delete_task s tid uid = (false, s)) := by
  constructor
  · rintro ⟨x, hx, hpx⟩
    have hsome : (s.tasks.find? (taskFilter tid uid)).isSome := by
      rw [List.find?_isSome]
      exact ⟨x, hx, hpx⟩
    obtain ⟨z, hz⟩ := Option.isSome_iff_exists.mp hsome
    have hzid : z.id = tid := by
      have hpz := List.find?_some hz
      simp [taskFilter] at hpz
      exact hpz.1
    by_cases hd : (properDescIds s.hier tid).isEmpty = true
    · have hdnil : properDescIds s.hier tid = [] := List.isEmpty_iff.mp hd
      have hres : delete_task s tid uid =
          (true, { s with
            tasks := s.tasks.filter (fun y => !(y.id == z.id)),
            hier := s.hier.filter (fun r =>
              !(r.ancestor == tid || r.descendant == tid)) }) := by
        simp [delete_task, hz, hd]
      rw [hres]
      refine ⟨rfl, ?_, ?_⟩
      · intro y hy
        rw [List.mem_filter] at hy
        have h2 := hy.2
        simp [hzid] at h2
        exact ⟨h2, by simp [hdnil]⟩
      · intro r hr
        rw [List.mem_filter] at hr
        have h2 := hr.2
        simp at h2
        exact ⟨h2.1, by simp [hdnil], h2.2, by simp [hdnil]⟩
    · have hres : delete_task s tid uid =
          (true, { s with
            tasks := s.tasks.filter (fun y =>
              !((tid :: properDescIds s.hier tid).contains y.id)),
            hier := s.hier.filter (fun r =>
              !((tid :: properDescIds s.hier tid).contains r.ancestor
                || (tid :: properDescIds s.hier tid).contains r.descendant)) }) := by
        simp [delete_task, hz, hd]
      rw [hres]
      refine ⟨rfl, ?_, ?_⟩
      · intro y hy
        rw [List.mem_filter] at hy
        have h2 := hy.2
        simp at h2
        exact h2
      · intro r hr
        rw [List.mem_filter] at hr
        have h2 := hr.2
        simp at h2
        exact ⟨h2.1.1, h2.1.2, h2.2.1, h2.2.2⟩
  · intro hall
    have hnone : s.tasks.find? (taskFilter tid uid) = none := by
      rw [List.find?_eq_none]
      intro y hy
      simp [hall y hy]
    simp [delete_task, hnone]

/-- Witness: deleting task 2 of demoDB (user 1) really removes 2, its
descendant 3, and every closure row touching them. -/
theorem deleteTask_spec_witness :
    (∃ x ∈ demoDB.tasks, taskFilter 2 (some 1) x = true)
    ∧ ((delete_task demoDB 2 (some 1)).1 = true
      ∧ (∀ y ∈ (delete_task demoDB 2 (some 1)).2.tasks,
          y.id ≠ 2 ∧ y.id ∉ properDescIds demoDB.hier 2)
      ∧ (∀ r ∈ (delete_task demoDB 2 (some 1)).2.hier,
          r.ancestor ≠ 2 ∧ r.ancestor ∉ properDescIds demoDB.hier 2
          ∧ r.descendant ≠ 2 ∧ r.descendant ∉ properDescIds demoDB.hier 2)) :=
  ⟨by decide, (deleteTask_spec demoDB 2 (some 1)).1 (by decide)⟩

/-! ### Completion toggle (C10) -/

/-- find? on a partitioned list whose left block has no match. -/
theorem find?_split {α : Type} {p : α → Bool} {l1 l2 : List α} {x : α}
    (h1 : ∀ y ∈ l1, p y = false) (hx : p x = true) :
    (l1 ++ x :: l2).find? p = some x := by
  induction l1 with
  | nil => simp [List.find?, hx]
  | cons a l ih =>
    have ha := h1 a (by simp)
    simp only [List.cons_append, List.find?, ha]
    exact ih fun y hy => h1 y (by simp [hy])

/-- replaceFirst on a partitioned list whose left block has no match. -/
theorem replaceFirst_split {α : Type} {p : α → Bool} {f : α → α} {l1 l2 : List α} {x : α}
    (h1 : ∀ y ∈ l1, p y = false) (hx : p x = true) :
    replaceFirst p f (l1 ++ x :: l2) = l1 ++ f x :: l2 := by
  induction l1 with
  | nil => simp [replaceFirst, hx]
  | cons a l ih =>
    have ha := h1 a (by simp)
    simp only [List.cons_append, replaceFirst, ha, Bool.false_eq_true, if_false,
      List.cons.injEq, true_and]
    exact ih fun y hy => h1 y (by simp [hy])

/-- C10: toggle_task_completion is an involution on the completed flag.
When the store splits as l1 ++ x :: l2 with x the first row passing the
id/user filter, one call returns the id with the flipped flag and
replaces exactly x by x with completed negated — every other field,
every other row and every other table unchanged — and a second call
returns the original flag and restores the store exactly. When no row
passes the filter the call returns none and changes nothing. -/
theorem toggleTaskCompletion_spec (s : DB) (tid : Nat) (uid : Option Nat) :
    (∀ l1 x l2, s.tasks = l1 ++ x :: l2 →
      (∀ y ∈ l1, taskFilter tid uid y = false) → taskFilter tid uid x = true →
      toggle_task_completion s tid uid =
        (some (x.id, !x.completed),
          { s with tasks := l1 ++ { x with completed := !x.completed } :: l2 })
      ∧ toggle_task_completion
          { s with tasks := l1 ++ { x with completed := !x.completed } :: l2 } tid uid
          = (some (x.id, x.completed), s))
    ∧ ((∀ y ∈ s.tasks, taskFilter tid uid y = false) →
      toggle_task_completion s tid uid = (none, s)) := by
  constructor
  · intro l1 x l2 hsplit h1 hx
    have hfilterx : taskFilter tid uid { x with completed := !x.completed } = true := hx
    constructor
    · have hfind : s.tasks.find? (taskFilter tid uid) = some x := by
        rw [hsplit]; exact find?_split h1 hx
      simp only [toggle_task_completion, hfind]
      rw [hsplit, replaceFirst_split h1 hx]
    · have hfind2 : (l1 ++ { x with completed := !x.completed } :: l2).find?
          (taskFilter tid uid) = some { x with completed := !x.completed } :=
        find?_split h1 hfilterx
      simp only [toggle_task_completion, hfind2]
      rw [replaceFirst_split h1 hfilterx]
      simp only [Bool.not_not]
      rw [show ({ x with completed := x.completed } : Task) = x from rfl, ← hsplit]
  · intro hall
    have hnone : s.tasks.find? (taskFilter tid uid) = none := by
      rw [List.find?_eq_none]
      intro y hy
      simp [hall y hy]
    simp [toggle_task_completion, hnone]

/-- Witness: toggling task 2 of demoDB (completed = true) returns
(2, false) and flips only that flag; toggling again restores demoDB. -/
theorem toggleTaskCompletion_spec_witness :
    (demoDB.tasks = [⟨1, "a", none, false, none, 1, none, none, none, none⟩]
        ++ (⟨2, "b", none, true, none, 1, none, some 1, none, none⟩ : Task)
        :: [⟨3, "c", none, false, none, 1, none, some 2, none, none⟩,
            ⟨4, "d", none, false, none, 1, none, none, none, none⟩])
    ∧ (toggle_task_completion demoDB 2 (some 1) =
        (some (2, false),
          { demoDB with tasks := [⟨1, "a", none, false, none, 1, none, none, none, none⟩]
              ++ (⟨2, "b", none, false, none, 1, none, some 1, none, none⟩ : Task)
              :: [⟨3, "c", none, false, none, 1, none, some 2, none, none⟩,
                  ⟨4, "d", none, false, none, 1, none, none, none, none⟩] })
      ∧ toggle_task_completion
          { demoDB with tasks := [⟨1, "a", none, false, none, 1, none, none, none, none⟩]
              ++ (⟨2, "b", none, false, none, 1, none, some 1, none, none⟩ : Task)
              :: [⟨3, "c", none, false, none, 1, none, some 2, none, none⟩,
                  ⟨4, "d", none, false, none, 1, none, none, none, none⟩] } 2 (some 1)
          = (some (2, true), demoDB)) :=
  ⟨by decide,
   (toggleTaskCompletion_spec demoDB 2 (some 1)).1
     [⟨1, "a", none, false, none, 1, none, none, none, none⟩]
     ⟨2, "b", none, true, none, 1, none, some 1, none, none⟩
     [⟨3, "c", none, false, none, 1, none, some 2, none, none⟩,
      ⟨4, "d", none, false, none, 1, none, none, none, none⟩]
     (by decide) (by decide) (by decide)⟩

/-! ### Activity aggregator claims (C8, C9) -/

/-- The counting loop of the per-day statistics equals three countP
aggregates over the same task list: actives, actives whose derived
completion holds, and actives that are partially completed. -/
theorem foldl_dayStep (allRows : List Task) (d today : Nat) (l : List Task)
    (a b c : Nat) :
    l.foldl (dayStep allRows d today) (a, b, c)
      = (a + l.countP (fun t => isActive t d today),
         b + l.countP (fun t => isActive t d today && taskCounted allRows t),
         c + l.countP (fun t => isActive t d today && taskPartial allRows t)) := by
  induction l generalizing a b c with
  | nil => simp
  | cons x l ih =>
    rw [List.foldl_cons]
    by_cases hact : isActive x d today = true
    · by_cases hemp : (allRows.filter (fun st => st.parentId == some x.id)).isEmpty = true
      · by_cases hcomp : x.completed = true
        · rw [show dayStep allRows d today (a, b, c) x = (a + 1, b + 1, c) by
            simp [dayStep, hact, hemp, hcomp]]
          rw [ih]
          simp only [List.countP_cons, hact, taskCounted, taskPartial, hemp, hcomp]
          simp
          omega
        · rw [show dayStep allRows d today (a, b, c) x = (a + 1, b, c) by
            simp [dayStep, hact, hemp, hcomp]]
          rw [ih]
          simp only [List.countP_cons, hact, taskCounted, taskPartial, hemp, hcomp]
          simp
          omega
      · by_cases hall : (allRows.filter (fun st => st.parentId == some x.id)).all
            (fun st => st.completed) = true
        · rw [show dayStep allRows d today (a, b, c) x = (a + 1, b + 1, c) by
            simp [dayStep, hact, hemp, hall]]
          rw [ih]
          simp only [List.countP_cons, hact, taskCounted, taskPartial, hemp, hall]
          simp
          omega
        · by_cases hany : (allRows.filter (fun st => st.parentId == some x.id)).any
              (fun st => st.completed) = true
          · rw [show dayStep allRows d today (a, b, c) x = (a + 1, b, c + 1) by
              simp [dayStep, hact, hemp, hall, hany]]
            rw [ih]
            simp only [List.countP_cons, hact, taskCounted, taskPartial, hemp, hall, hany]
            simp
            omega
          · rw [show dayStep allRows d today (a, b, c) x = (a + 1, b, c) by
              simp [dayStep, hact, hemp, hall, hany]]
            rw [ih]
            simp only [List.countP_cons, hact, taskCounted, taskPartial, hemp, hall, hany]
            simp
            omega
    · rw [show dayStep allRows d today (a, b, c) x = (a, b, c) by
        simp [dayStep, hact]]
      rw [ih]
      simp only [List.countP_cons]
      simp [hact]

/-- The day list contains day d at position d - start whenever d lies in
the inclusive range. -/
theorem dayRange_getElem {startD endD d : Nat} (h1 : startD ≤ d) (h2 : d ≤ endD) :
    (dayRange startD endD)[d - startD]? = some d := by
  unfold dayRange
  rw [List.getElem?_map, List.getElem?_range (by omega)]
  simp
  omega

/-- The emitted entry for a day in range is the dayStat of that day over
the base query, with the client-supplied today. -/
theorem stats_entry_eq (s : DB) (uid startD endD today sv d : Nat)
    (h1 : startD ≤ d) (h2 : d ≤ endD) :
    (get_tasks_stats_by_date_range s uid startD endD none none (some today) sv)[d - startD]?
      = some (dayStat s.tasks (statsBaseQuery s uid startD endD none none) d today) := by
  simp only [get_tasks_stats_by_date_range, Option.getD_some, List.getElem?_map]
  rw [dayRange_getElem h1 h2]
  rfl

/-- C8: a root task t of the querying user is counted as active on a day
d of the queried range (it passes the base query and the per-day test,
and the emitted totalTasks for d counts exactly such tasks) iff its
creation day is at most d and either its deadline is set and at least d,
or it has no deadline, is not completed, and d is today. -/
theorem statsActive_iff (s : DB) (uid startD endD today sv : Nat) (t : Task) (d : Nat)
    (hmem : t ∈ s.tasks) (huser : t.userId = uid) (hroot : t.parentId = none)
    (h1 : startD ≤ d) (h2 : d ≤ endD) :
    (countedActive s uid startD endD none none t d today = true
      ↔ ((∃ c, t.creationDate = some c ∧ c ≤ d)
        ∧ ((∃ dl, t.deadline = some dl ∧ d ≤ dl)
          ∨ (t.deadline = none ∧ t.completed = false ∧ d = today))))
    ∧ (get_tasks_stats_by_date_range s uid startD endD none none (some today) sv)[d - startD]?
        = some (dayStat s.tasks (statsBaseQuery s uid startD endD none none) d today)
    ∧ (dayStat s.tasks (statsBaseQuery s uid startD endD none none) d today).totalTasks
        = (statsBaseQuery s uid startD endD none none).countP
            (fun u => isActive u d today) := by
  refine ⟨?_, stats_entry_eq s uid startD endD today sv d h1 h2, ?_⟩
  · rcases hcd : t.creationDate with _ | c
    · simp [countedActive, isActive, hcd]
    · rcases hdl : t.deadline with _ | dl
      · simp [countedActive, statsBaseQuery, isActive, List.mem_filter,
          hmem, huser, hroot, hcd, hdl]
        constructor
        · rintro ⟨⟨_, hcmp⟩, hcd2, hdt, _⟩
          exact ⟨hcd2, hcmp, hdt⟩
        · rintro ⟨hcd2, hcmp, hdt⟩
          exact ⟨⟨by omega, hcmp⟩, hcd2, hdt, hcmp⟩
      · simp [countedActive, statsBaseQuery, isActive, List.mem_filter,
          hmem, huser, hroot, hcd, hdl]
        omega
  · show (dayStat s.tasks (statsBaseQuery s uid startD endD none none) d today).totalTasks = _
    unfold dayStat
    rw [foldl_dayStep]
    simp

/-- Witness for statsActive_iff: in statsDB with the range 14..17 and
today = 16, the windowed task (creation 10, deadline 15) is counted on
day 15 — the last day of its six-day window. -/
theorem statsActive_iff_witness :
    ((⟨5, "windowed", none, false, none, 1, none, none, some 10, some 15⟩ : Task) ∈ statsDB.tasks
      ∧ (14 : Nat) ≤ 15 ∧ (15 : Nat) ≤ 17)
    ∧ (countedActive statsDB 1 14 17 none none
        ⟨5, "windowed", none, false, none, 1, none, none, some 10, some 15⟩ 15 16 = true
      ↔ ((∃ c, (some 10 : Option Nat) = some c ∧ c ≤ 15)
        ∧ ((∃ dl, (some 15 : Option Nat) = some dl ∧ 15 ≤ dl)
          ∨ ((some 15 : Option Nat) = none ∧ false = false ∧ 15 = 16)))) :=
  ⟨⟨by decide, by decide, by decide⟩,
   (statsActive_iff statsDB 1 14 17 16 0
     ⟨5, "windowed", none, false, none, 1, none, none, some 10, some 15⟩ 15
     (by decide) rfl rfl (by decide) (by decide)).1⟩

/-- C9: full characterization of an emitted per-day entry for a day in
range: totalTasks counts the active tasks, completedTasks counts the
active tasks whose derived completion holds (all direct subtasks
completed when there are any, the root's own flag otherwise), the status
is Free / Completed / inprogress / Not started by the claimed case
analysis, and the completion percentage is round(completed/total*100, 2)
for a positive total and 0 otherwise. -/
theorem statsDayStat_spec (s : DB) (uid startD endD today sv d : Nat)
    (h1 : startD ≤ d) (h2 : d ≤ endD) :
    (get_tasks_stats_by_date_range s uid startD endD none none (some today) sv)[d - startD]?
      = some
        { date := d, weekday := d % 7,
          totalTasks := (statsBaseQuery s uid startD endD none none).countP
            (fun u => isActive u d today),
          completedTasks := (statsBaseQuery s uid startD endD none none).countP
            (fun u => isActive u d today && taskCounted s.tasks u),
          status :=
            if (statsBaseQuery s uid startD endD none none).countP
                (fun u => isActive u d today) = 0 then "Free"
            else if (statsBaseQuery s uid startD endD none none).countP
                  (fun u => isActive u d today && taskCounted s.tasks u)
                = (statsBaseQuery s uid startD endD none none).countP
                  (fun u => isActive u d today) then "Completed"
            else if 0 < (statsBaseQuery s uid startD endD none none).countP
                  (fun u => isActive u d today && taskCounted s.tasks u)
                ∨ 0 < (statsBaseQuery s uid startD endD none none).countP
                  (fun u => isActive u d today && taskPartial s.tasks u) then "inprogress"
            else "Not started",
          completionPercentage :=
            if 0 < (statsBaseQuery s uid startD endD none none).countP
                (fun u => isActive u d today) then
              round2 (((statsBaseQuery s uid startD endD none none).countP
                  (fun u => isActive u d today && taskCounted s.tasks u) : ℚ)
                / ((statsBaseQuery s uid startD endD none none).countP
                  (fun u => isActive u d today) : ℚ) * 100)
            else 0 } := by
  rw [stats_entry_eq s uid startD endD today sv d h1 h2]
  congr 1
  unfold dayStat
  rw [foldl_dayStep]
  simp only [Nat.zero_add]
  congr 1
  · by_cases hC : (statsBaseQuery s uid startD endD none none).countP
        (fun u => isActive u d today && taskCounted s.tasks u)
      = (statsBaseQuery s uid startD endD none none).countP (fun u => isActive u d today)
    · simp [hC]
    · by_cases hP : 0 < (statsBaseQuery s uid startD endD none none).countP
          (fun u => isActive u d today && taskPartial s.tasks u)
      · simp [hC, hP]
      · simp [hC, hP]

/-- Witness for statsDayStat_spec: the entry for day 16 of statsDB's
range 14..17 with today = 16 (one active undated task, not completed). -/
theorem statsDayStat_spec_witness :
    (14 : Nat) ≤ 16 ∧ (16 : Nat) ≤ 17
    ∧ (get_tasks_stats_by_date_range statsDB 1 14 17 none none (some 16) 0)[16 - 14]?
      = some
        { date := 16, weekday := 16 % 7,
          totalTasks := (statsBaseQuery statsDB 1 14 17 none none).countP
            (fun u => isActive u 16 16),
          completedTasks := (statsBaseQuery statsDB 1 14 17 none none).countP
            (fun u => isActive u 16 16 && taskCounted statsDB.tasks u),
          status :=
            if (statsBaseQuery statsDB 1 14 17 none none).countP
                (fun u => isActive u 16 16) = 0 then "Free"
            else if (statsBaseQuery statsDB 1 14 17 none none).countP
                  (fun u => isActive u 16 16 && taskCounted statsDB.tasks u)
                = (statsBaseQuery statsDB 1 14 17 none none).countP
                  (fun u => isActive u 16 16) then "Completed"
            else if 0 < (statsBaseQuery statsDB 1 14 17 none none).countP
                  (fun u => isActive u 16 16 && taskCounted statsDB.tasks u)
                ∨ 0 < (statsBaseQuery statsDB 1 14 17 none none).countP
                  (fun u => isActive u 16 16 && taskPartial statsDB.tasks u) then "inprogress"
            else "Not started",
          completionPercentage :=
            if 0 < (statsBaseQuery statsDB 1 14 17 none none).countP
                (fun u => isActive u 16 16) then
              round2 (((statsBaseQuery statsDB 1 14 17 none none).countP
                  (fun u => isActive u 16 16 && taskCounted statsDB.tasks u) : ℚ)
                / ((statsBaseQuery statsDB 1 14 17 none none).countP
                  (fun u => isActive u 16 16) : ℚ) * 100)
            else 0 } :=
  ⟨by decide, by decide, statsDayStat_spec statsDB 1 14 17 16 0 16 (by decide) (by decide)⟩

/-! ### MoveSubtask relinking (C3) -/

/-- The boolean closure-key test, unfolded to a proposition. -/
theorem hkey_beq {r : HRow} {a d : Nat} :
    (r.ancestor == a && r.descendant == d) = true ↔ r.ancestor = a ∧ r.descendant = d := by
  simp

/-- Two rows of a key-unique table with equal keys are equal. -/
theorem hrow_key_eq {hier : List HRow}
    (hKeys : hier.Pairwise (fun r r2 =>
      r.ancestor ≠ r2.ancestor ∨ r.descendant ≠ r2.descendant))
    {x y : HRow} (hx : x ∈ hier) (hy : y ∈ hier)
    (ha : x.ancestor = y.ancestor) (hd : x.descendant = y.descendant) : x = y := by
  by_contra hne
  have hsym : Symmetric fun r r2 : HRow =>
      r.ancestor ≠ r2.ancestor ∨ r.descendant ≠ r2.descendant := by
    intro u v h
    rcases h with h | h
    · exact Or.inl (Ne.symm h)
    · exact Or.inr (Ne.symm h)
  rcases List.Pairwise.forall hsym hKeys hx hy hne with h | h
  · exact h ha
  · exact h hd

/-- find? returns the unique matching element. -/
theorem find?_eq_of_unique {α : Type} {p : α → Bool} {l : List α} {x : α}
    (hx : x ∈ l) (hpx : p x = true) (huniq : ∀ y ∈ l, p y = true → y = x) :
    l.find? p = some x := by
  induction l with
  | nil => cases hx
  | cons a l ih =>
    by_cases hpa : p a = true
    · have ha : a = x := huniq a (by simp) hpa
      subst ha
      exact List.find?_cons_of_pos l hpa
    · have hax : x ≠ a := fun h => hpa (h ▸ hpx)
      rw [List.find?_cons_of_neg l hpa]
      rcases List.mem_cons.mp hx with h | h
      · exact absurd h hax
      · exact ih h fun y hy hpy => huniq y (List.mem_cons_of_mem a hy) hpy

/-- Membership in an upsert. -/
theorem mem_upsertHRow {hier : List HRow} {a d k : Nat} {x : HRow} :
    x ∈ upsertHRow hier a d k
      ↔ x = ⟨a, d, k⟩ ∨ (x ∈ hier ∧ ¬(x.ancestor = a ∧ x.descendant = d)) := by
  unfold upsertHRow
  by_cases hany : hier.any (fun r => r.ancestor == a && r.descendant == d) = true
  · rw [if_pos hany, List.mem_map]
    constructor
    · rintro ⟨y, hy, hmap⟩
      by_cases hk : (y.ancestor == a && y.descendant == d) = true
      · rw [if_pos hk] at hmap
        exact Or.inl hmap.symm
      · rw [if_neg hk] at hmap
        subst hmap
        exact Or.inr ⟨hy, fun hc => hk (hkey_beq.mpr hc)⟩
    · rintro (rfl | ⟨hx, hnk⟩)
      · obtain ⟨y, hy, hk⟩ := List.any_eq_true.mp hany
        exact ⟨y, hy, by rw [if_pos hk]⟩
      · exact ⟨x, hx, by rw [if_neg fun hc => hnk (hkey_beq.mp hc)]⟩
  · rw [if_neg hany, List.mem_append, List.mem_singleton]
    constructor
    · rintro (hx | rfl)
      · exact Or.inr ⟨hx, fun hc => hany (List.any_eq_true.mpr ⟨x, hx, hkey_beq.mpr hc⟩)⟩
      · exact Or.inl rfl
    · rintro (rfl | ⟨hx, _⟩)
      · exact Or.inr rfl
      · exact Or.inl hx

/-- A map that fixes every element satisfying q and preserves q-status
preserves find?. -/
theorem find?_map_congr {α : Type} {g : α → α} {q : α → Bool}
    (hg1 : ∀ r, q (g r) = q r) (hg2 : ∀ r, q r = true → g r = r) :
    ∀ l : List α, (l.map g).find? q = l.find? q := by
  intro l
  induction l with
  | nil => rfl
  | cons a l ih =>
    by_cases hqa : q a = true
    · rw [List.map_cons, List.find?_cons_of_pos _ (by rw [hg1]; exact hqa),
        List.find?_cons_of_pos _ hqa, hg2 a hqa]
    · rw [List.map_cons, List.find?_cons_of_neg _ (by rw [hg1]; exact hqa),
        List.find?_cons_of_neg _ hqa, ih]

/-- An upsert whose ancestor differs from t does not change find? on a
(t, m) key. -/
theorem find?_upsert_ne {acc : List HRow} {a d k t m : Nat} (hne : a ≠ t) :
    (upsertHRow acc a d k).find? (fun r => r.ancestor == t && r.descendant == m)
      = acc.find? (fun r => r.ancestor == t && r.descendant == m) := by
  unfold upsertHRow
  by_cases hany : acc.any (fun r => r.ancestor == a && r.descendant == d) = true
  · rw [if_pos hany]
    apply find?_map_congr
    · intro r
      by_cases hk : (r.ancestor == a && r.descendant == d) = true
      · rw [if_pos hk]
        have h1 : r.ancestor = a := (hkey_beq.mp hk).1
        have hnew : ((⟨a, d, k⟩ : HRow).ancestor == t
            && (⟨a, d, k⟩ : HRow).descendant == m) = false := by
          simp [hne]
        have hr : (r.ancestor == t && r.descendant == m) = false := by
          simp [h1, hne]
        rw [hnew, hr]
      · rw [if_neg hk]
    · intro r hq
      have hq2 : r.ancestor = t ∧ r.descendant = m := by simpa using hq
      rw [if_neg fun hk => hne ((hkey_beq.mp hk).1.symm.trans hq2.1)]
  · rw [if_neg hany, List.find?_append]
    have hat : (a == t) = false := by simp [hne]
    have hnone : ([(⟨a, d, k⟩ : HRow)]).find?
        (fun r => r.ancestor == t && r.descendant == m) = none := by
      simp [List.find?, hat]
    rw [hnone]
    cases acc.find? (fun r => r.ancestor == t && r.descendant == m) <;> rfl

/-- upsertMany over an appended write list is sequential. -/
theorem upsertMany_append (base ws1 ws2 : List HRow) :
    upsertMany base (ws1 ++ ws2) = upsertMany (upsertMany base ws1) ws2 := by
  unfold upsertMany
  exact List.foldl_append _ _ _ _

/-- Membership after a batch of upserts with pairwise-distinct keys:
exactly the writes, plus the base rows whose key no write touches. -/
theorem mem_upsertMany {ws : List HRow} :
    ∀ {base : List HRow} {x : HRow},
      ws.Pairwise (fun w w2 => w.ancestor ≠ w2.ancestor ∨ w.descendant ≠ w2.descendant) →
      (x ∈ upsertMany base ws
        ↔ x ∈ ws ∨ (x ∈ base
            ∧ ∀ w ∈ ws, ¬(w.ancestor = x.ancestor ∧ w.descendant = x.descendant))) := by
  induction ws with
  | nil => intro base x _; simp [upsertMany]
  | cons w ws ih =>
    intro base x hkeys
    have hw : ∀ w2 ∈ ws, w.ancestor ≠ w2.ancestor ∨ w.descendant ≠ w2.descendant :=
      (List.pairwise_cons.mp hkeys).1
    rw [show upsertMany base (w :: ws)
        = upsertMany (upsertHRow base w.ancestor w.descendant w.depth) ws from rfl,
      ih (List.pairwise_cons.mp hkeys).2]
    constructor
    · rintro (hx | ⟨hmem, hnk⟩)
      · exact Or.inl (List.mem_cons_of_mem w hx)
      · rcases mem_upsertHRow.mp hmem with rfl | ⟨hb, hk⟩
        · exact Or.inl (by
            rw [show (⟨w.ancestor, w.descendant, w.depth⟩ : HRow) = w from rfl]
            exact List.mem_cons_self w ws)
        · refine Or.inr ⟨hb, fun w2 hw2 hc => ?_⟩
          rcases List.mem_cons.mp hw2 with rfl | hw3
          · exact hk ⟨hc.1.symm, hc.2.symm⟩
          · exact hnk w2 hw3 hc
    · rintro (hx | ⟨hb, hnk⟩)
      · rcases List.mem_cons.mp hx with rfl | hx2
        · refine Or.inr ⟨mem_upsertHRow.mpr (Or.inl rfl), fun w2 hw2 hc => ?_⟩
          rcases hw w2 hw2 with h | h
          · exact h hc.1.symm
          · exact h hc.2.symm
        · exact Or.inl hx2
      · refine Or.inr ⟨mem_upsertHRow.mpr (Or.inr ⟨hb, fun hc =>
          hnk w (List.mem_cons_self w ws) ⟨hc.1.symm, hc.2.symm⟩⟩),
          fun w2 hw2 => hnk w2 (List.mem_cons_of_mem w hw2)⟩

/-- replaceFirst with a filter-preserving update maps the find? result. -/
theorem find?_replaceFirst {α : Type} {q : α → Bool} {f : α → α}
    (hf : ∀ y, q (f y) = q y) :
    ∀ l : List α, (replaceFirst q f l).find? q = (l.find? q).map f := by
  intro l
  induction l with
  | nil => rfl
  | cons a l ih =>
    by_cases hqa : q a = true
    · rw [show replaceFirst q f (a :: l) = f a :: l from by simp [replaceFirst, hqa],
        List.find?_cons_of_pos _ (by rw [hf]; exact hqa), List.find?_cons_of_pos _ hqa]
      rfl
    · rw [show replaceFirst q f (a :: l) = a :: replaceFirst q f l from by
          simp [replaceFirst, hqa],
        List.find?_cons_of_neg _ hqa, List.find?_cons_of_neg _ hqa, ih]

/-- Every write row carries the ancestor of its ancestor row. -/
theorem moveWrites_anc {t : Nat} {h1 : List HRow} {D : List Nat} {ar w : HRow}
    (hw : w ∈ moveWrites t h1 D ar) : w.ancestor = ar.ancestor := by
  obtain ⟨m, _, hmap⟩ := List.mem_filterMap.mp hw
  obtain ⟨sr, _, heq⟩ := Option.map_eq_some'.mp hmap
  rw [← heq]

/-- Every write row's descendant is one of the processed member ids. -/
theorem moveWrites_desc {t : Nat} {h1 : List HRow} {D : List Nat} {ar w : HRow}
    (hw : w ∈ moveWrites t h1 D ar) : w.descendant ∈ D := by
  obtain ⟨m, hm, hmap⟩ := List.mem_filterMap.mp hw
  obtain ⟨sr, _, heq⟩ := Option.map_eq_some'.mp hmap
  rw [← heq]
  exact hm

/-- Writes for one ancestor row have pairwise-distinct descendants when
the member list has no duplicates. -/
theorem moveWrites_pairwise {t : Nat} {h1 : List HRow} {ar : HRow} :
    ∀ {D : List Nat}, D.Pairwise (fun m m2 => m ≠ m2) →
      (moveWrites t h1 D ar).Pairwise (fun w w2 => w.descendant ≠ w2.descendant) := by
  intro D
  induction D with
  | nil => intro _; exact List.Pairwise.nil
  | cons m D ih =>
    intro hD
    have hD2 := List.pairwise_cons.mp hD
    rw [show moveWrites t h1 (m :: D) ar
        = ((h1.find? (fun r => r.ancestor == t && r.descendant == m)).map
            (fun sr => (⟨ar.ancestor, m, ar.depth + sr.depth + 1⟩ : HRow))).toList
          ++ moveWrites t h1 D ar from by
          simp [moveWrites, List.filterMap_cons]
          cases h1.find? (fun r => r.ancestor == t && r.descendant == m) <;> simp]
    rw [List.pairwise_append]
    refine ⟨?_, ih hD2.2, ?_⟩
    · cases h1.find? (fun r => r.ancestor == t && r.descendant == m) <;> simp
    · intro w hwm w2 hw2
      cases hfind : h1.find? (fun r => r.ancestor == t && r.descendant == m) with
      | none => rw [hfind] at hwm; cases hwm
      | some sr =>
        rw [hfind] at hwm
        have hwval : w = ⟨ar.ancestor, m, ar.depth + sr.depth + 1⟩ := by
          simpa using hwm
        have : w2.descendant ∈ D := moveWrites_desc hw2
        rw [hwval]
        exact fun hc => hD2.1 w2.descendant this (hc ▸ rfl)

/-- The inner loop over the members for one ancestor row equals the batch
of precomputed writes, and preserves the find?-agreement with h1 on all
(t, m) keys. -/
theorem moveOuter_eq_upsertMany {t : Nat} {h1 : List HRow} {ar : HRow}
    (hne : ar.ancestor ≠ t) :
    ∀ {D : List Nat} (acc : List HRow),
      (∀ m, acc.find? (fun r => r.ancestor == t && r.descendant == m)
        = h1.find? (fun r => r.ancestor == t && r.descendant == m)) →
      moveOuter t D acc ar = upsertMany acc (moveWrites t h1 D ar)
      ∧ ∀ m, (moveOuter t D acc ar).find? (fun r => r.ancestor == t && r.descendant == m)
          = h1.find? (fun r => r.ancestor == t && r.descendant == m) := by
  intro D
  induction D with
  | nil => intro acc hAgree; exact ⟨rfl, hAgree⟩
  | cons m D ih =>
    intro acc hAgree
    have hstep : moveInner t ar acc m =
        match h1.find? (fun r => r.ancestor == t && r.descendant == m) with
        | some sr => upsertHRow acc ar.ancestor m (ar.depth + sr.depth + 1)
        | none => acc := by
      rw [moveInner, hAgree m]
    cases hfind : h1.find? (fun r => r.ancestor == t && r.descendant == m) with
    | none =>
      have hstep2 : moveInner t ar acc m = acc := by rw [hstep, hfind]
      have hwr : moveWrites t h1 (m :: D) ar = moveWrites t h1 D ar := by
        simp [moveWrites, List.filterMap_cons, hfind]
      rw [show moveOuter t (m :: D) acc ar
          = D.foldl (moveInner t ar) (moveInner t ar acc m) from rfl, hstep2, hwr]
      exact ih acc hAgree
    | some sr =>
      have hstep2 : moveInner t ar acc m
          = upsertHRow acc ar.ancestor m (ar.depth + sr.depth + 1) := by
        rw [hstep, hfind]
      have hAgree2 : ∀ m2, (upsertHRow acc ar.ancestor m
            (ar.depth + sr.depth + 1)).find?
            (fun r => r.ancestor == t && r.descendant == m2)
          = h1.find? (fun r => r.ancestor == t && r.descendant == m2) :=
        fun m2 => (find?_upsert_ne hne).trans (hAgree m2)
      have hwr : moveWrites t h1 (m :: D) ar
          = (⟨ar.ancestor, m, ar.depth + sr.depth + 1⟩ : HRow) :: moveWrites t h1 D ar := by
        simp [moveWrites, List.filterMap_cons, hfind]
      rw [show moveOuter t (m :: D) acc ar
          = D.foldl (moveInner t ar) (moveInner t ar acc m) from rfl, hstep2, hwr]
      exact ih _ hAgree2

/-- The outer loop over the new parent's ancestor rows equals the batch
of all precomputed writes. -/
theorem outerFold_eq {t : Nat} {h1 : List HRow} {D : List Nat} :
    ∀ (A : List HRow) (acc : List HRow),
      (∀ ar ∈ A, ar.ancestor ≠ t) →
      (∀ m, acc.find? (fun r => r.ancestor == t && r.descendant == m)
        = h1.find? (fun r => r.ancestor == t && r.descendant == m)) →
      A.foldl (moveOuter t D) acc = upsertMany acc (A.flatMap (moveWrites t h1 D)) := by
  intro A
  induction A with
  | nil => intro acc _ _; rfl
  | cons ar A ih =>
    intro acc hA hAgree
    have hone := @moveOuter_eq_upsertMany t h1 ar
      (hA ar (List.mem_cons_self ar A)) D acc hAgree
    rw [List.foldl_cons, List.flatMap_cons, upsertMany_append,
      ih _ (fun ar2 h => hA ar2 (List.mem_cons_of_mem ar h)) hone.2, hone.1]

/-- Membership in the subtree id set. -/
theorem mem_subtreeIds {hier : List HRow} {t m : Nat} :
    m ∈ subtreeIds hier t ↔ ∃ j, (⟨t, m, j⟩ : HRow) ∈ hier := by
  unfold subtreeIds
  rw [List.mem_map]
  constructor
  · rintro ⟨r, hr, hdesc⟩
    rw [List.mem_filter] at hr
    have hanc : r.ancestor = t := by simpa using hr.2
    refine ⟨r.depth, ?_⟩
    have hre : r = ⟨t, m, r.depth⟩ := by
      cases r
      simp_all
    rw [← hre]
    exact hr.1
  · rintro ⟨j, hj⟩
    exact ⟨⟨t, m, j⟩, List.mem_filter.mpr ⟨hj, by simp⟩, rfl⟩

/-- Membership in the table after move_subtask's severing DELETE. -/
theorem mem_deleteFilter {hier : List HRow} {D : List Nat} {r : HRow} :
    r ∈ hier.filter (fun r => !(D.contains r.descendant && !D.contains r.ancestor))
      ↔ r ∈ hier ∧ (r.descendant ∈ D → r.ancestor ∈ D) := by
  rw [List.mem_filter]
  constructor
  · rintro ⟨h1, h2⟩
    refine ⟨h1, fun hd => ?_⟩
    simp only [Bool.not_and, Bool.not_not, Bool.or_eq_true, Bool.not_eq_true'] at h2
    rcases h2 with h2 | h2
    · exact absurd hd (by simpa using h2)
    · simpa using h2
  · rintro ⟨h1, h2⟩
    refine ⟨h1, ?_⟩
    by_cases hd : r.descendant ∈ D
    · have ha := h2 hd
      simp [ha]
    · simp [hd]

/-- The concatenated write lists of distinct-ancestor rows have
pairwise-distinct keys. -/
theorem flatMap_moveWrites_pairwise {t : Nat} {h1 : List HRow} {D : List Nat}
    (hD : D.Pairwise (fun m m2 => m ≠ m2)) :
    ∀ {A : List HRow}, A.Pairwise (fun ar ar2 => ar.ancestor ≠ ar2.ancestor) →
      (A.flatMap (moveWrites t h1 D)).Pairwise
        (fun w w2 => w.ancestor ≠ w2.ancestor ∨ w.descendant ≠ w2.descendant) := by
  intro A
  induction A with
  | nil => intro _; exact List.Pairwise.nil
  | cons ar A ih =>
    intro hA
    have hA2 := List.pairwise_cons.mp hA
    rw [List.flatMap_cons, List.pairwise_append]
    refine ⟨List.Pairwise.imp (fun h => Or.inr h) (moveWrites_pairwise hD), ih hA2.2, ?_⟩
    intro w hw w2 hw2
    obtain ⟨ar2, har2, hw2m⟩ := List.mem_flatMap.mp hw2
    refine Or.inl ?_
    rw [moveWrites_anc hw, moveWrites_anc hw2m]
    exact hA2.1 ar2 har2

/-- C3: after a valid move of the subtree rooted at t under the new
parent p, move_subtask reports success, the moved task's parentId is p,
and for every member m of t's subtree the closure rows above m are
exactly: one row through every ancestor row of p (p itself included via
its self-edge) at depth (that ancestor's depth over p) + (m's depth below
t) + 1, together with the untouched rows from inside t's subtree — so no
row from m to any of t's old proper ancestors survives. The hypotheses
are the validity conditions of the claim, spelled out on the closure
table: t and p pass the id/user lookup, p differs from t and no closure
row t → p exists (p is not in t's subtree), t has its self-edge, the
closure table is key-unique, and no subtree member is an ancestor of p
(a consequence of p not being a descendant of t in a transitively closed
table). -/
theorem moveSubtask_relink (s : DB) (t p : Nat) (uid : Option Nat)
    (ht : ∃ x ∈ s.tasks, taskFilter t uid x = true)
    (hp : ∃ x ∈ s.tasks, taskFilter p uid x = true)
    (hne : t ≠ p)
    (hNoRow : ∀ r ∈ s.hier, ¬(r.ancestor = t ∧ r.descendant = p))
    (hSelf : (⟨t, t, 0⟩ : HRow) ∈ s.hier)
    (hKeys : s.hier.Pairwise (fun r r2 =>
      r.ancestor ≠ r2.ancestor ∨ r.descendant ≠ r2.descendant))
    (hDisj : ∀ r ∈ s.hier, r.descendant = p →
      ¬∃ r2 ∈ s.hier, r2.ancestor = t ∧ r2.descendant = r.ancestor) :
    (move_subtask s t (some p) uid).1 = true
    ∧ (move_subtask s t (some p) uid).2.tasks.find? (taskFilter t uid)
        = (s.tasks.find? (taskFilter t uid)).map (fun x => { x with parentId := some p })
    ∧ ∀ m ∈ subtreeIds s.hier t, ∀ a j,
        ((⟨a, m, j⟩ : HRow) ∈ (move_subtask s t (some p) uid).2.hier
          ↔ (∃ da k, (⟨a, p, da⟩ : HRow) ∈ s.hier ∧ (⟨t, m, k⟩ : HRow) ∈ s.hier
              ∧ j = da + k + 1)
            ∨ ((⟨a, m, j⟩ : HRow) ∈ s.hier ∧ a ∈ subtreeIds s.hier t)) := by
  obtain ⟨xt, hxt, hpxt⟩ := ht
  obtain ⟨xp, hxp, hpxp⟩ := hp
  obtain ⟨zt, hzt⟩ := Option.isSome_iff_exists.mp (List.find?_isSome.mpr ⟨xt, hxt, hpxt⟩)
  obtain ⟨zp, hzp⟩ := Option.isSome_iff_exists.mp (List.find?_isSome.mpr ⟨xp, hxp, hpxp⟩)
  have htInD : t ∈ subtreeIds s.hier t := mem_subtreeIds.mpr ⟨0, hSelf⟩
  have hpD : p ∉ subtreeIds s.hier t := by
    intro hmem
    obtain ⟨j, hj⟩ := mem_subtreeIds.mp hmem
    exact hNoRow ⟨t, p, j⟩ hj ⟨rfl, rfl⟩
  have hDne : (subtreeIds s.hier t).isEmpty = false := by
    cases hD : subtreeIds s.hier t with
    | nil => rw [hD] at htInD; cases htInD
    | cons a l => rfl
  have hbeq : (t == p) = false := by simp [hne]
  have hanyf : (s.hier.any fun r => r.ancestor == t && r.descendant == p) = false := by
    rw [List.any_eq_false]
    exact fun r hr hk => hNoRow r hr (hkey_beq.mp hk)
  have hred : move_subtask s t (some p) uid =
      (true, { s with
        tasks := replaceFirst (taskFilter t uid)
          (fun x => { x with parentId := some p }) s.tasks,
        hier := ((s.hier.filter (fun r =>
            !((subtreeIds s.hier t).contains r.descendant
              && !(subtreeIds s.hier t).contains r.ancestor))).filter
            (fun r => r.descendant == p)).foldl
          (moveOuter t (subtreeIds s.hier t))
          (s.hier.filter (fun r =>
            !((subtreeIds s.hier t).contains r.descendant
              && !(subtreeIds s.hier t).contains r.ancestor))) }) := by
    simp only [move_subtask, hzt, hzp, hbeq, hanyf, hDne]
    simp
  have hhier : (move_subtask s t (some p) uid).2.hier
      = ((s.hier.filter (fun r =>
          !((subtreeIds s.hier t).contains r.descendant
            && !(subtreeIds s.hier t).contains r.ancestor))).filter
          (fun r => r.descendant == p)).foldl
        (moveOuter t (subtreeIds s.hier t))
        (s.hier.filter (fun r =>
          !((subtreeIds s.hier t).contains r.descendant
            && !(subtreeIds s.hier t).contains r.ancestor))) := by
    rw [hred]
  refine ⟨by rw [hred], ?_, ?_⟩
  · rw [hred]
    show (replaceFirst (taskFilter t uid)
        (fun x => { x with parentId := some p }) s.tasks).find? (taskFilter t uid) = _
    exact @find?_replaceFirst Task (taskFilter t uid)
      (fun x => { x with parentId := some p }) (fun y => rfl) s.tasks
  intro m hm a j
  rw [hhier]
  set D := subtreeIds s.hier t with hDdef
  set h1 := s.hier.filter (fun r =>
    !(D.contains r.descendant && !D.contains r.ancestor)) with h1def
  set A := h1.filter (fun r => r.descendant == p) with hAdef
  have hfind_some : ∀ m2 k, (⟨t, m2, k⟩ : HRow) ∈ s.hier →
      h1.find? (fun r => r.ancestor == t && r.descendant == m2) = some ⟨t, m2, k⟩ := by
    intro m2 k hrow
    apply find?_eq_of_unique
    · rw [h1def]
      exact mem_deleteFilter.mpr ⟨hrow, fun _ => htInD⟩
    · exact hkey_beq.mpr ⟨rfl, rfl⟩
    · intro y hy hky
      have hymem : y ∈ s.hier := by
        rw [h1def] at hy
        exact (mem_deleteFilter.mp hy).1
      exact hrow_key_eq hKeys hymem hrow (hkey_beq.mp hky).1 (hkey_beq.mp hky).2
  have hfind_inv : ∀ m2 sr,
      h1.find? (fun r => r.ancestor == t && r.descendant == m2) = some sr →
      sr ∈ s.hier ∧ sr.ancestor = t ∧ sr.descendant = m2 := by
    intro m2 sr hf
    have hmem := List.mem_of_find?_eq_some hf
    rw [h1def] at hmem
    have hpred := List.find?_some hf
    exact ⟨(mem_deleteFilter.mp hmem).1, (hkey_beq.mp hpred).1, (hkey_beq.mp hpred).2⟩
  have hmemA : ∀ ar : HRow, ar ∈ A ↔ ar ∈ s.hier ∧ ar.descendant = p := by
    intro ar
    rw [hAdef, List.mem_filter, h1def, mem_deleteFilter]
    constructor
    · rintro ⟨⟨h1m, _⟩, h2⟩
      exact ⟨h1m, by simpa using h2⟩
    · rintro ⟨h1m, h2⟩
      refine ⟨⟨h1m, fun hd => ?_⟩, by simp [h2]⟩
      rw [h2] at hd
      exact absurd hd hpD
  have hA_anc_ne : ∀ ar ∈ A, ar.ancestor ≠ t := by
    intro ar har hc
    have h2 := (hmemA ar).mp har
    exact hNoRow ar h2.1 ⟨hc, h2.2⟩
  have hDnodup : D.Pairwise (fun m1 m2 => m1 ≠ m2) := by
    rw [hDdef]
    unfold subtreeIds
    rw [List.pairwise_map]
    refine List.Pairwise.imp_of_mem ?_ (hKeys.filter _)
    intro r1 r2 h1m h2m hk
    have ha1 : r1.ancestor = t := by simpa using (List.mem_filter.mp h1m).2
    have ha2 : r2.ancestor = t := by simpa using (List.mem_filter.mp h2m).2
    rcases hk with h | h
    · exact absurd (ha1.trans ha2.symm) h
    · exact h
  have hA_pairwise : A.Pairwise (fun ar ar2 => ar.ancestor ≠ ar2.ancestor) := by
    rw [hAdef, h1def]
    refine List.Pairwise.imp_of_mem ?_ ((hKeys.filter _).filter _)
    intro r1 r2 h1m h2m hk
    have hd1 : r1.descendant = p := by simpa using (List.mem_filter.mp h1m).2
    have hd2 : r2.descendant = p := by simpa using (List.mem_filter.mp h2m).2
    rcases hk with h | h
    · exact h
    · exact absurd (hd1.trans hd2.symm) h
  have hWkeys := @flatMap_moveWrites_pairwise t h1 D hDnodup A hA_pairwise
  have hWmem : ∀ a2 m2 j2, ((⟨a2, m2, j2⟩ : HRow) ∈ A.flatMap (moveWrites t h1 D)
      ↔ ∃ da k, (⟨a2, p, da⟩ : HRow) ∈ s.hier ∧ (⟨t, m2, k⟩ : HRow) ∈ s.hier
          ∧ j2 = da + k + 1) := by
    intro a2 m2 j2
    rw [List.mem_flatMap]
    constructor
    · rintro ⟨ar, har, hx⟩
      obtain ⟨m3, hm3, hmap⟩ := List.mem_filterMap.mp hx
      obtain ⟨sr, hsr, heq⟩ := Option.map_eq_some'.mp hmap
      obtain ⟨hsrmem, hsra, hsrd⟩ := hfind_inv m3 sr hsr
      have harA := (hmemA ar).mp har
      have heq2 : ar.ancestor = a2 ∧ m3 = m2 ∧ ar.depth + sr.depth + 1 = j2 := by
        have h := heq
        simp only [HRow.mk.injEq] at h
        exact h
      refine ⟨ar.depth, sr.depth, ?_, ?_, ?_⟩
      · rw [← heq2.1]
        have hare : ar = ⟨ar.ancestor, p, ar.depth⟩ := by rw [← harA.2]
        rw [← hare]
        exact harA.1
      · rw [← heq2.2.1]
        have hsre : sr = ⟨t, m3, sr.depth⟩ := by rw [← hsra, ← hsrd]
        rw [← hsre]
        exact hsrmem
      · exact heq2.2.2.symm
    · rintro ⟨da, k, hrow1, hrow2, hdep⟩
      refine ⟨⟨a2, p, da⟩, (hmemA _).mpr ⟨hrow1, rfl⟩, ?_⟩
      apply List.mem_filterMap.mpr
      refine ⟨m2, ?_, ?_⟩
      · rw [hDdef]
        exact mem_subtreeIds.mpr ⟨k, hrow2⟩
      · rw [hfind_some m2 k hrow2]
        rw [hdep]
        rfl
  rw [@outerFold_eq t h1 D A h1 hA_anc_ne (fun m2 => rfl),
    mem_upsertMany hWkeys]
  constructor
  · rintro (hx | ⟨hh1, hnk⟩)
    · exact Or.inl ((hWmem a m j).mp hx)
    · rw [h1def] at hh1
      have h2 := mem_deleteFilter.mp hh1
      exact Or.inr ⟨h2.1, h2.2 hm⟩
  · rintro (⟨da, k, h1r, h2r, hdep⟩ | ⟨hmem2, haD⟩)
    · exact Or.inl ((hWmem a m j).mpr ⟨da, k, h1r, h2r, hdep⟩)
    · refine Or.inr ⟨?_, ?_⟩
      · rw [h1def]
        exact mem_deleteFilter.mpr ⟨hmem2, fun _ => haD⟩
      · intro w hw hc
        obtain ⟨da, k, hrow1, hrow2, _⟩ := (hWmem w.ancestor w.descendant w.depth).mp hw
        have haD2 : a ∈ subtreeIds s.hier t := by rw [← hDdef]; exact haD
        obtain ⟨j2, hj2⟩ := mem_subtreeIds.mp haD2
        exact hDisj ⟨w.ancestor, p, da⟩ hrow1 rfl ⟨⟨t, a, j2⟩, hj2, rfl, hc.1.symm⟩

/-- Witness: moveSubtask_relink applied to demoDB, moving the subtree of
task 2 (members 2 and 3) under the separate root 4. -/
theorem moveSubtask_relink_witness :
    ((∃ x ∈ demoDB.tasks, taskFilter 2 (some 1) x = true)
      ∧ (∃ x ∈ demoDB.tasks, taskFilter 4 (some 1) x = true)
      ∧ (2 : Nat) ≠ 4
      ∧ (∀ r ∈ demoDB.hier, ¬(r.ancestor = 2 ∧ r.descendant = 4))
      ∧ (⟨2, 2, 0⟩ : HRow) ∈ demoDB.hier)
    ∧ ((move_subtask demoDB 2 (some 4) (some 1)).1 = true
      ∧ (move_subtask demoDB 2 (some 4) (some 1)).2.tasks.find? (taskFilter 2 (some 1))
          = (demoDB.tasks.find? (taskFilter 2 (some 1))).map
              (fun x => { x with parentId := some 4 })
      ∧ ∀ m ∈ subtreeIds demoDB.hier 2, ∀ a j,
          ((⟨a, m, j⟩ : HRow) ∈ (move_subtask demoDB 2 (some 4) (some 1)).2.hier
            ↔ (∃ da k, (⟨a, 4, da⟩ : HRow) ∈ demoDB.hier
                ∧ (⟨2, m, k⟩ : HRow) ∈ demoDB.hier ∧ j = da + k + 1)
              ∨ ((⟨a, m, j⟩ : HRow) ∈ demoDB.hier ∧ a ∈ subtreeIds demoDB.hier 2))) :=
  ⟨⟨by decide, by decide, by decide, by decide, by decide⟩,
   moveSubtask_relink demoDB 2 4 (some 1) (by decide) (by decide) (by decide)
     (by decide) (by decide) (by decide) (by decide)⟩

end DreamDuo
